import Mathlib

/-!
Shallow embedding of the `chacha20poly1305guard` Go package
(`src/chacha20poly1305guard.go`) and verification of the spec's claims
about it.

Go byte slices are modelled as `List Nat` (each element a byte value);
machine bytes are reduced modulo 256 exactly where the source does.
The external collaborators (the `chacha20guard` stream cipher and the
`poly1305` MAC, both out of scope per the spec) are parameters of the
embedding: a keystream function and a MAC function.
-/

namespace ChaCha20Poly1305Guard

/-- Go byte slices, modelled as lists of byte values. -/
abbrev Bytes := List Nat

namespace chacha20guard

/-- Key size constant of the external `chacha20guard` package: 32-byte keys. -/
def KeySize : Nat := 32

/-- Nonce size constant of the external `chacha20guard` package: 8-byte
nonces for the short-nonce ChaCha20 variant. -/
def NonceSize : Nat := 8

/-- Extended nonce size constant of the external `chacha20guard` package:
24-byte nonces for the XChaCha20 variant. -/
def XNonceSize : Nat := 24

end chacha20guard

namespace poly1305

/-- Tag size constant of the external `poly1305` package: 16-byte tags. -/
def TagSize : Nat := 16

end poly1305

/-- The external collaborators, treated as black boxes (spec section 6):
`ks x key nonce i` is byte `i` of the keystream that `chacha20guard.New`
(for `x = false`) or `chacha20guard.NewX` (for `x = true`) produces for
the given key and nonce — successive `XORKeyStream` calls on one stream
object consume consecutive positions of this keystream; `mac key msg` is
`poly1305.Sum` of `msg` under the 32-byte one-time `key`, a 16-byte tag. -/
structure Externals where
  ks : Bool → Bytes → Bytes → Nat → Nat
  mac : Bytes → Bytes → Bytes

/-- The `chacha20poly1305` struct: the byte contents of the
memguard-protected key (`ek.Buffer()`) and the variant flag. -/
structure chacha20poly1305 where
  ek : Bytes
  isXChaCha : Bool
  deriving DecidableEq

/-- The package's error values: `ErrAuthFailed`, `ErrInvalidKey`,
`ErrInvalidNonce`. -/
inductive GuardErr where
  | authFailed
  | invalidKey
  | invalidNonce
  deriving DecidableEq

/-- How a call can abort instead of returning: `invalidNonce` is the
explicit `panic(ErrInvalidNonce)`; `sliceBounds` is the Go runtime fault
raised by `ciphertext[len(ciphertext)-16:]` when the input is shorter
than 16 bytes. -/
inductive PanicKind where
  | invalidNonce
  | sliceBounds
  deriving DecidableEq

/-- Outcome of `Seal`: a returned byte slice, or a panic. -/
inductive SealOutcome where
  | ret (bs : Bytes)
  | panicked (p : PanicKind)
  deriving DecidableEq

/-- Outcome of `Open`: a normal return carrying the Go return values
(the byte slice, with Go `nil` modelled as `[]`, and the error), or a
panic. -/
inductive OpenOutcome where
  | ret (bs : Bytes) (e : Option GuardErr)
  | panicked (p : PanicKind)
  deriving DecidableEq

/-- `KeySize = chacha20guard.KeySize`, the required ChaCha20 key size. -/
def KeySize : Nat := chacha20guard.KeySize

/-- `NewX` returns an XChaCha20Poly1305 AEAD; the key must be 32 bytes. -/
def NewX (key : Bytes) : Except GuardErr chacha20poly1305 :=
  if key.length ≠ KeySize then .error .invalidKey
  else .ok ⟨key, true⟩

/-- `New` returns a ChaCha20Poly1305 AEAD; the key must be 32 bytes. -/
def New (key : Bytes) : Except GuardErr chacha20poly1305 :=
  if key.length ≠ KeySize then .error .invalidKey
  else .ok ⟨key, false⟩

/-- `NonceSize` method: 24 for the XChaCha variant, 8 otherwise. -/
def NonceSize (k : chacha20poly1305) : Nat :=
  if k.isXChaCha then chacha20guard.XNonceSize else chacha20guard.NonceSize

/-- `Overhead` method: `poly1305.TagSize`, i.e. 16. -/
def Overhead : Nat := poly1305.TagSize

/-- `c.XORKeyStream(dst, src)` on a stream whose next keystream position
is `pos`: each byte of `src` is XORed with the corresponding keystream
byte, and the stream position advances. -/
def xorKeyStream (c : Nat → Nat) : Nat → Bytes → Bytes
  | _, [] => []
  | pos, b :: rest => Nat.xor b (c pos) :: xorKeyStream c (pos + 1) rest

/-- `binary.LittleEndian.PutUint64` of `uint64(n)`: the 8 bytes of `n`
in little-endian order. -/
def le64 (n : Nat) : Bytes := (List.range 8).map fun i => n / 2 ^ (8 * i) % 256

/-- `copy(m[off:], src)` on a Go slice `m`: overwrites
`min(len(src), len(m)-off)` bytes of `m` starting at `off` with the
front of `src`, leaving the length of `m` unchanged. -/
def copyAt (m : Bytes) (off : Nat) (src : Bytes) : Bytes :=
  m.take off ++ src.take (m.length - off) ++ m.drop (off + src.length)

/-- The message buffer `m` built inside the source's `tag` function:
a zeroed buffer of `len(ciphertext)+len(data)+8+8` bytes, into which are
copied `data` at offset 0, the little-endian length of `data` after it,
then `ciphertext`, then the little-endian length of `ciphertext`. -/
def tagMessage (ciphertext data : Bytes) : Bytes :=
  let m0 := List.replicate (ciphertext.length + data.length + 8 + 8) 0
  let m1 := copyAt m0 0 data
  let m2 := copyAt m1 data.length (le64 data.length)
  let m3 := copyAt m2 (data.length + 8) ciphertext
  copyAt m3 (data.length + 8 + ciphertext.length) (le64 ciphertext.length)

/-- The source's `tag` function: build the framed message and delegate
to the external `poly1305.Sum` (the `mac` parameter). -/
def tag (mac : Bytes → Bytes → Bytes) (key ciphertext data : Bytes) : Bytes :=
  mac key (tagMessage ciphertext data)

/-- `subtle.ConstantTimeCompare`: 1 when the two slices have equal
lengths and contents, 0 otherwise. -/
def constantTimeCompare (x y : Bytes) : Nat := if x = y then 1 else 0

/-- The `Seal` method, translated statement by statement from the
source: panic on a wrong-size nonce; derive the 64-byte subkey block at
keystream position 0; take its first 32 bytes as the Poly1305 key; XOR
the plaintext with the keystream continuing at position 64; compute the
tag over the ciphertext and associated data; append ciphertext and tag
to `dst`. -/
def Seal (E : Externals) (k : chacha20poly1305) (dst nonce plaintext data : Bytes) :
    SealOutcome :=
  if nonce.length ≠ NonceSize k then .panicked .invalidNonce
  else
    let c := E.ks k.isXChaCha k.ek nonce
    let subkey := xorKeyStream c 0 (List.replicate 64 0)
    let poly1305Key := subkey.take 32
    let ciphertext := xorKeyStream c 64 plaintext
    let t := tag E.mac poly1305Key ciphertext data
    .ret (dst ++ (ciphertext ++ t))

/-- The `Open` method, translated statement by statement from the
source: panic on a wrong-size nonce; split the input into ciphertext
prefix and trailing 16-byte digest (a slice-bounds runtime fault when
the input is shorter than 16 bytes, since the source performs no length
check); derive the subkey block and Poly1305 key exactly as in `Seal`;
recompute the tag; on comparison failure return `(nil, ErrAuthFailed)`;
otherwise XOR the ciphertext with the keystream at position 64 and
append the plaintext to `dst`. -/
def Open (E : Externals) (k : chacha20poly1305) (dst nonce ciphertext data : Bytes) :
    OpenOutcome :=
  if nonce.length ≠ NonceSize k then .panicked .invalidNonce
  else if ciphertext.length < Overhead then .panicked .sliceBounds
  else
    let digest := ciphertext.drop (ciphertext.length - Overhead)
    let ct := ciphertext.take (ciphertext.length - Overhead)
    let c := E.ks k.isXChaCha k.ek nonce
    let subkey := xorKeyStream c 0 (List.replicate 64 0)
    let poly1305Key := subkey.take 32
    let t := tag E.mac poly1305Key ct data
    if constantTimeCompare t digest ≠ 1 then .ret [] (some .authFailed)
    else .ret (dst ++ xorKeyStream c 64 ct) none

/-- Keystream bytes `c off, c (off+1), ..., c (off+n-1)`, the spec's
"derive keystream of `n` bytes at stream position `off`". -/
def keystreamBytes (c : Nat → Nat) (off n : Nat) : Bytes :=
  (List.range n).map fun i => c (off + i)

/-- The spec's framing, stated as plain concatenation: associated data,
its 8-byte little-endian length, the ciphertext, its 8-byte
little-endian length, with no padding. -/
def frameSpec (data ciphertext : Bytes) : Bytes :=
  data ++ le64 data.length ++ ciphertext ++ le64 ciphertext.length

/-- The spec's description of `Seal`'s result (spec section 4.1, steps
1-5): one-time MAC key = first 32 of the 64-byte keystream block at
position 0; ciphertext = plaintext XOR keystream from position 64; tag
= MAC over the framed message; result = ciphertext then tag. -/
def sealSpec (E : Externals) (k : chacha20poly1305) (nonce plaintext data : Bytes) :
    Bytes :=
  let c := E.ks k.isXChaCha k.ek nonce
  let otk := (keystreamBytes c 0 64).take 32
  let ct := List.zipWith Nat.xor plaintext (keystreamBytes c 64 plaintext.length)
  ct ++ E.mac otk (frameSpec data ct)

/-- Final contents of the transient 64-byte `subkey` buffer when `Seal`
or `Open` returns: both methods write the keystream block into it once
(`c.XORKeyStream(subkey, subkey)` on the freshly zeroed buffer) and the
source contains no later write to — in particular no scrubbing of —
that buffer on any path to return. -/
def subkeyAtReturn (E : Externals) (k : chacha20poly1305) (nonce : Bytes) : Bytes :=
  xorKeyStream (E.ks k.isXChaCha k.ek nonce) 0 (List.replicate 64 0)

/-- Final contents of the transient 32-byte `poly1305Key` buffer when
`Seal` or `Open` returns: filled byte by byte from the first 32 bytes
of `subkey` and never written again before return. -/
def poly1305KeyAtReturn (E : Externals) (k : chacha20poly1305) (nonce : Bytes) :
    Bytes :=
  (subkeyAtReturn E k nonce).take 32

/-- A concrete, fully computable instantiation of the external
collaborators, used only to evaluate the embedding on concrete inputs
(the claims hold for every instantiation; witnesses need one). -/
def testExt : Externals where
  ks := fun x key nonce i => (i + key.sum + nonce.sum + (if x then 1 else 0)) % 256
  mac := fun key m => (List.range 16).map fun i => (key.sum + m.sum + m.length + i) % 256

/-! ### Helper lemmas about the embedding -/

theorem xor_zero_left (n : Nat) : Nat.xor 0 n = n := Nat.zero_xor n

theorem xor_xor_cancel (a k : Nat) : Nat.xor (Nat.xor a k) k = a := Nat.xor_cancel_right k a

theorem xorKeyStream_length (c : Nat → Nat) :
    ∀ (pos : Nat) (l : Bytes), (xorKeyStream c pos l).length = l.length
  | _, [] => rfl
  | pos, _ :: rest => by
      simp [xorKeyStream, xorKeyStream_length c (pos + 1) rest]

theorem keystreamBytes_succ (c : Nat → Nat) (off n : Nat) :
    keystreamBytes c off (n + 1) = c off :: keystreamBytes c (off + 1) n := by
  simp only [keystreamBytes, List.range_succ_eq_map, List.map_cons, List.map_map]
  congr 1
  refine List.map_congr_left ?_
  intro i _
  simp only [Function.comp]
  congr 1
  omega

theorem xorKeyStream_eq_zipWith (c : Nat → Nat) :
    ∀ (pos : Nat) (l : Bytes),
      xorKeyStream c pos l = List.zipWith Nat.xor l (keystreamBytes c pos l.length)
  | _, [] => by simp [xorKeyStream]
  | pos, b :: rest => by
      rw [List.length_cons, keystreamBytes_succ]
      simp [xorKeyStream, xorKeyStream_eq_zipWith c (pos + 1) rest]

theorem xorKeyStream_replicate_zero (c : Nat → Nat) :
    ∀ (pos n : Nat), xorKeyStream c pos (List.replicate n 0) = keystreamBytes c pos n
  | _, 0 => by simp [xorKeyStream, keystreamBytes]
  | pos, n + 1 => by
      rw [List.replicate_succ, keystreamBytes_succ]
      simp only [xorKeyStream]
      rw [xor_zero_left, xorKeyStream_replicate_zero c (pos + 1) n]

theorem xorKeyStream_xorKeyStream (c : Nat → Nat) :
    ∀ (pos : Nat) (l : Bytes), xorKeyStream c pos (xorKeyStream c pos l) = l
  | _, [] => rfl
  | pos, b :: rest => by
      simp only [xorKeyStream]
      rw [xor_xor_cancel, xorKeyStream_xorKeyStream c (pos + 1) rest]

theorem le64_length (n : Nat) : (le64 n).length = 8 := by simp [le64]

theorem copyAt_exact (pre rest src : Bytes) (h : src.length ≤ rest.length) :
    copyAt (pre ++ rest) pre.length src = pre ++ (src ++ rest.drop src.length) := by
  unfold copyAt
  rw [List.take_left, List.length_append, Nat.add_sub_cancel_left,
    List.take_of_length_le h, List.drop_append, List.append_assoc]

theorem tagMessage_eq (ciphertext data : Bytes) :
    tagMessage ciphertext data =
      data ++ le64 data.length ++ ciphertext ++ le64 ciphertext.length := by
  have h1 : copyAt (List.replicate (ciphertext.length + data.length + 8 + 8) 0) 0 data
      = data ++ List.replicate (ciphertext.length + 16) 0 := by
    have h := copyAt_exact [] (List.replicate (ciphertext.length + data.length + 8 + 8) 0)
      data (by simp; omega)
    simp only [List.nil_append, List.length_nil] at h
    rw [List.drop_replicate] at h
    have he : ciphertext.length + data.length + 8 + 8 - data.length
        = ciphertext.length + 16 := by omega
    rw [he] at h
    exact h
  have h2 : copyAt (data ++ List.replicate (ciphertext.length + 16) 0)
        data.length (le64 data.length)
      = data ++ (le64 data.length ++ List.replicate (ciphertext.length + 8) 0) := by
    have h := copyAt_exact data (List.replicate (ciphertext.length + 16) 0)
      (le64 data.length) (by simp [le64_length])
    rw [List.drop_replicate, le64_length] at h
    have he : ciphertext.length + 16 - 8 = ciphertext.length + 8 := by omega
    rw [he] at h
    exact h
  have hp3 : (data ++ le64 data.length).length = data.length + 8 := by
    simp [le64_length]
  have h3 : copyAt (data ++ (le64 data.length ++ List.replicate (ciphertext.length + 8) 0))
        (data.length + 8) ciphertext
      = (data ++ le64 data.length) ++ (ciphertext ++ List.replicate 8 0) := by
    have h := copyAt_exact (data ++ le64 data.length)
      (List.replicate (ciphertext.length + 8) 0) ciphertext (by simp)
    rw [hp3, List.drop_replicate] at h
    have he : ciphertext.length + 8 - ciphertext.length = 8 := by omega
    rw [he, List.append_assoc data (le64 data.length)] at h
    exact h
  have hp4 : ((data ++ le64 data.length) ++ ciphertext).length
      = data.length + 8 + ciphertext.length := by
    simp [le64_length]
    omega
  have h4 : copyAt ((data ++ le64 data.length) ++ (ciphertext ++ List.replicate 8 0))
        (data.length + 8 + ciphertext.length) (le64 ciphertext.length)
      = ((data ++ le64 data.length) ++ ciphertext) ++ le64 ciphertext.length := by
    have h := copyAt_exact ((data ++ le64 data.length) ++ ciphertext)
      (List.replicate 8 0) (le64 ciphertext.length) (by simp [le64_length])
    rw [hp4] at h
    rw [List.drop_replicate, le64_length] at h
    simp only [Nat.sub_self, List.replicate_zero, List.append_nil] at h
    rw [List.append_assoc (data ++ le64 data.length) ciphertext] at h
    exact h
  simp only [tagMessage]
  rw [h1, h2, h3, h4]

/-! ### Concrete instances used to evaluate the embedding -/

/-- A concrete AEAD instance: 32-byte all-zero key, short-nonce mode. -/
def kZero : chacha20poly1305 := ⟨List.replicate 32 0, false⟩

/-- A concrete valid 8-byte nonce for the short-nonce mode. -/
def nonce8 : Bytes := List.replicate 8 0

theorem testExt_mac_length : ∀ (key m : Bytes), (testExt.mac key m).length = 16 := by
  intro key m
  simp [testExt]

/-! ### The claims -/

/-- C5: for every associated data byte string and every ciphertext byte
string, the message the `tag` function passes to the MAC primitive is
exactly the concatenation of the associated data, its length as an
8-byte little-endian unsigned integer, the ciphertext, and its length
as an 8-byte little-endian unsigned integer, with no padding. -/
theorem tag_message_framing (mac : Bytes → Bytes → Bytes) (key ciphertext data : Bytes) :
    tag mac key ciphertext data
      = mac key (data ++ le64 data.length ++ ciphertext ++ le64 ciphertext.length) := by
  unfold tag
  rw [tagMessage_eq]

/-- C8: for every key buffer, `New` and `NewX` return the invalid-key
error exactly when the key length is not 32 bytes, and otherwise
succeed with an instance bound to that key and the respective mode. -/
theorem new_key_size_iff (key : Bytes) :
    (New key = .error .invalidKey ↔ key.length ≠ 32)
    ∧ (New key = .ok ⟨key, false⟩ ↔ key.length = 32)
    ∧ (NewX key = .error .invalidKey ↔ key.length ≠ 32)
    ∧ (NewX key = .ok ⟨key, true⟩ ↔ key.length = 32) := by
  by_cases h : key.length = 32 <;>
    simp [New, NewX, KeySize, chacha20guard.KeySize, h]

/-- Witness for C8: a 32-byte key is accepted by `New`. -/
theorem new_key_size_iff_witness :
    New (List.replicate 32 0) = .ok ⟨List.replicate 32 0, false⟩ :=
  (new_key_size_iff (List.replicate 32 0)).2.1.mpr (by decide)

/-- C3 (the code deviates): on an instance built by `New` from a
32-byte key, `Open` applied to inputs shorter than 16 bytes (here 0 and
15 bytes) does not return the authentication-failure error; it aborts
with the slice-bounds runtime fault, because the source computes
`ciphertext[len(ciphertext)-16:]` without any length check. -/
theorem open_short_input_panics :
    New (List.replicate 32 0) = .ok kZero
    ∧ Open testExt kZero [] nonce8 [] [] = .panicked .sliceBounds
    ∧ Open testExt kZero [] nonce8 (List.replicate 15 0) [] = .panicked .sliceBounds := by
  refine ⟨rfl, ?_, ?_⟩ <;> decide

/-- C6 (the code deviates): no scrubbing occurs — at a concrete
instance and keystream, the transient 64-byte subkey buffer and the
32-byte Poly1305 key buffer still hold keystream-derived bytes, not
zeros, when `Seal`/`Open` return. -/
theorem transient_buffers_not_scrubbed :
    subkeyAtReturn testExt kZero nonce8 ≠ List.replicate 64 0
    ∧ poly1305KeyAtReturn testExt kZero nonce8 ≠ List.replicate 32 0 := by
  decide

theorem Seal_eq (E : Externals) (k : chacha20poly1305) (dst nonce plaintext data : Bytes)
    (hn : nonce.length = NonceSize k) :
    Seal E k dst nonce plaintext data =
      .ret (dst ++ (xorKeyStream (E.ks k.isXChaCha k.ek nonce) 64 plaintext ++
        tag E.mac ((xorKeyStream (E.ks k.isXChaCha k.ek nonce) 0 (List.replicate 64 0)).take 32)
          (xorKeyStream (E.ks k.isXChaCha k.ek nonce) 64 plaintext) data)) := by
  simp only [Seal]
  rw [if_neg (by simp [hn])]

theorem Open_eq (E : Externals) (k : chacha20poly1305) (dst nonce ciphertext data : Bytes)
    (hn : nonce.length = NonceSize k) (hlen : ¬ ciphertext.length < Overhead) :
    Open E k dst nonce ciphertext data =
      (if constantTimeCompare
          (tag E.mac ((xorKeyStream (E.ks k.isXChaCha k.ek nonce) 0 (List.replicate 64 0)).take 32)
            (ciphertext.take (ciphertext.length - Overhead)) data)
          (ciphertext.drop (ciphertext.length - Overhead)) ≠ 1
        then .ret [] (some .authFailed)
        else .ret (dst ++ xorKeyStream (E.ks k.isXChaCha k.ek nonce) 64
          (ciphertext.take (ciphertext.length - Overhead))) none) := by
  simp only [Open]
  rw [if_neg (by simp [hn]), if_neg hlen]

theorem tag_length (mac : Bytes → Bytes → Bytes) (key ciphertext data : Bytes)
    (hmac : ∀ a m, (mac a m).length = 16) :
    (tag mac key ciphertext data).length = 16 := by
  simp [tag, hmac]

theorem seal_open_roundtrip (E : Externals) (key nonce plaintext data : Bytes)
    (k : chacha20poly1305) (s : Bytes)
    (_hk : New key = .ok k ∨ NewX key = .ok k)
    (hmac : ∀ a m, (E.mac a m).length = 16)
    (hn : nonce.length = NonceSize k)
    (hs : Seal E k [] nonce plaintext data = .ret s) :
    Open E k [] nonce s data = .ret plaintext none := by
  rw [Seal_eq E k [] nonce plaintext data hn] at hs
  injection hs with hs
  rw [List.nil_append] at hs
  subst hs
  have hct : (xorKeyStream (E.ks k.isXChaCha k.ek nonce) 64 plaintext).length
      = plaintext.length := xorKeyStream_length _ _ _
  have ht : (tag E.mac
      ((xorKeyStream (E.ks k.isXChaCha k.ek nonce) 0 (List.replicate 64 0)).take 32)
      (xorKeyStream (E.ks k.isXChaCha k.ek nonce) 64 plaintext) data).length = 16 :=
    tag_length _ _ _ _ hmac
  have hlen : ¬ (xorKeyStream (E.ks k.isXChaCha k.ek nonce) 64 plaintext ++
      tag E.mac ((xorKeyStream (E.ks k.isXChaCha k.ek nonce) 0 (List.replicate 64 0)).take 32)
        (xorKeyStream (E.ks k.isXChaCha k.ek nonce) 64 plaintext) data).length < Overhead := by
    rw [List.length_append, hct, ht]
    simp only [Overhead, poly1305.TagSize]
    omega
  rw [Open_eq E k [] nonce _ data hn hlen]
  have hsub : (xorKeyStream (E.ks k.isXChaCha k.ek nonce) 64 plaintext ++
      tag E.mac ((xorKeyStream (E.ks k.isXChaCha k.ek nonce) 0 (List.replicate 64 0)).take 32)
        (xorKeyStream (E.ks k.isXChaCha k.ek nonce) 64 plaintext) data).length - Overhead
      = (xorKeyStream (E.ks k.isXChaCha k.ek nonce) 64 plaintext).length := by
    rw [List.length_append, hct, ht]
    simp only [Overhead, poly1305.TagSize]
    omega
  rw [hsub, List.take_left, List.drop_left]
  rw [if_neg (by simp [constantTimeCompare])]
  rw [xorKeyStream_xorKeyStream, List.nil_append]

theorem seal_refines_spec (E : Externals) (k : chacha20poly1305)
    (dst nonce plaintext data : Bytes) (hn : nonce.length = NonceSize k) :
    Seal E k dst nonce plaintext data = .ret (dst ++ sealSpec E k nonce plaintext data) := by
  rw [Seal_eq E k dst nonce plaintext data hn]
  simp only [sealSpec, tag, tagMessage_eq, frameSpec]
  rw [xorKeyStream_replicate_zero, xorKeyStream_eq_zipWith]

theorem nonce_size_panic_iff (E : Externals) (key : Bytes) (k : chacha20poly1305)
    (dst nonce plaintext ciphertext data : Bytes)
    (_hk : New key = .ok k ∨ NewX key = .ok k) :
    NonceSize k = (if k.isXChaCha then 24 else 8)
    ∧ (∀ pk, Seal E k dst nonce plaintext data = .panicked pk
        ↔ (nonce.length ≠ NonceSize k ∧ pk = .invalidNonce))
    ∧ (Open E k dst nonce ciphertext data = .panicked .invalidNonce
        ↔ nonce.length ≠ NonceSize k) := by
  refine ⟨?_, ?_, ?_⟩
  · cases hx : k.isXChaCha <;>
      simp [NonceSize, hx, chacha20guard.XNonceSize, chacha20guard.NonceSize]
  · intro pk
    by_cases h : nonce.length = NonceSize k
    · simp [Seal, h]
    · simp [Seal, h, eq_comm]
  · by_cases h : nonce.length = NonceSize k
    · simp only [Open]
      rw [if_neg (by simp [h])]
      simp only [h, ne_eq, not_true_eq_false, iff_false]
      split
      · simp
      · split <;> simp
    · simp [Open, h]

theorem seal_open_lengths (E : Externals) (k : chacha20poly1305)
    (nonce plaintext data ciphertext out pt : Bytes)
    (hmac : ∀ a m, (E.mac a m).length = 16)
    (hn : nonce.length = NonceSize k) :
    (Seal E k [] nonce plaintext data = .ret out → out.length = plaintext.length + 16)
    ∧ (Open E k [] nonce ciphertext data = .ret pt none →
        pt.length = ciphertext.length - 16) := by
  constructor
  · intro h
    rw [Seal_eq E k [] nonce plaintext data hn] at h
    injection h with h
    rw [← h]
    simp [List.length_append, xorKeyStream_length, tag_length E.mac _ _ _ hmac]
  · intro h
    by_cases hl : ciphertext.length < Overhead
    · rw [Open] at h
      rw [if_neg (by simp [hn]), if_pos hl] at h
      exact absurd h (by simp)
    · rw [Open_eq E k [] nonce ciphertext data hn hl] at h
      split at h
      · exact absurd h (by simp)
      · injection h with h1 h2
        rw [List.nil_append] at h1
        rw [← h1]
        rw [xorKeyStream_length]
        rw [List.length_take]
        simp only [Overhead, poly1305.TagSize] at hl ⊢
        omega

theorem dst_append_semantics (E : Externals) (k : chacha20poly1305)
    (dst nonce plaintext data ciphertext s pt : Bytes) :
    (Seal E k [] nonce plaintext data = .ret s →
      Seal E k dst nonce plaintext data = .ret (dst ++ s))
    ∧ (Open E k [] nonce ciphertext data = .ret pt none →
      Open E k dst nonce ciphertext data = .ret (dst ++ pt) none)
    ∧ (Open E k [] nonce ciphertext data = .ret [] (some .authFailed) →
      Open E k dst nonce ciphertext data = .ret [] (some .authFailed)) := by
  refine ⟨?_, ?_, ?_⟩ <;> intro h
  · by_cases hn : nonce.length = NonceSize k
    · rw [Seal_eq E k [] nonce plaintext data hn] at h
      injection h with h
      rw [List.nil_append] at h
      rw [Seal_eq E k dst nonce plaintext data hn, h]
    · rw [Seal] at h
      rw [if_pos (by simp [hn])] at h
      exact absurd h (by simp)
  · by_cases hn : nonce.length = NonceSize k
    · by_cases hl : ciphertext.length < Overhead
      · rw [Open] at h
        rw [if_neg (by simp [hn]), if_pos hl] at h
        exact absurd h (by simp)
      · rw [Open_eq E k [] nonce ciphertext data hn hl] at h
        rw [Open_eq E k dst nonce ciphertext data hn hl]
        split at h
        · exact absurd h (by simp)
        · next hc =>
          rw [if_neg hc]
          injection h with h1 h2
          rw [List.nil_append] at h1
          rw [h1]
    · rw [Open] at h
      rw [if_pos (by simp [hn])] at h
      exact absurd h (by simp)
  · by_cases hn : nonce.length = NonceSize k
    · by_cases hl : ciphertext.length < Overhead
      · rw [Open] at h
        rw [if_neg (by simp [hn]), if_pos hl] at h
        exact absurd h (by simp)
      · rw [Open_eq E k [] nonce ciphertext data hn hl] at h
        rw [Open_eq E k dst nonce ciphertext data hn hl]
        split at h
        · next hc =>
          rw [if_pos hc]
        · exact absurd h (by simp)
    · rw [Open] at h
      rw [if_pos (by simp [hn])] at h
      exact absurd h (by simp)

theorem open_tag_mismatch_auth_failed (E : Externals) (k : chacha20poly1305)
    (dst nonce ciphertext data : Bytes)
    (hn : nonce.length = NonceSize k)
    (hlen : Overhead ≤ ciphertext.length)
    (hmis : tag E.mac
        ((xorKeyStream (E.ks k.isXChaCha k.ek nonce) 0 (List.replicate 64 0)).take 32)
        (ciphertext.take (ciphertext.length - Overhead)) data
      ≠ ciphertext.drop (ciphertext.length - Overhead)) :
    Open E k dst nonce ciphertext data = .ret [] (some .authFailed) := by
  rw [Open_eq E k dst nonce ciphertext data hn (by omega)]
  rw [if_pos (by simp only [constantTimeCompare, ne_eq, if_neg hmis]; decide)]

/-- The byte slice a successful `Seal` returns, used to build concrete
inputs for the witnesses below. -/
def sealBytes (E : Externals) (k : chacha20poly1305) (nonce plaintext data : Bytes) : Bytes :=
  match Seal E k [] nonce plaintext data with
  | .ret s => s
  | .panicked _ => []

/-- Witness for C1: a concrete 16-byte input whose recomputed tag
differs from its trailing digest makes `Open` return the
authentication-failure error with an empty byte slice. -/
theorem open_tag_mismatch_auth_failed_witness :
    Open testExt kZero [] nonce8 (List.replicate 16 0) [] = .ret [] (some .authFailed) :=
  open_tag_mismatch_auth_failed testExt kZero [] nonce8 (List.replicate 16 0) []
    (by decide) (by decide) (by decide)

/-- Witness for C2: a concrete seal-then-open round trip recovers the
plaintext. -/
theorem seal_open_roundtrip_witness :
    Open testExt kZero [] nonce8 (sealBytes testExt kZero nonce8 [72, 105] [1, 2]) [1, 2]
      = .ret [72, 105] none :=
  seal_open_roundtrip testExt (List.replicate 32 0) nonce8 [72, 105] [1, 2] kZero
    (sealBytes testExt kZero nonce8 [72, 105] [1, 2])
    (Or.inl rfl) testExt_mac_length (by decide) (by decide)

/-- Witness for C4: a concrete `Seal` call produces exactly the
spec-side composition appended to `dst`. -/
theorem seal_refines_spec_witness :
    Seal testExt kZero [9] nonce8 [1, 2, 3] [4] =
      .ret ([9] ++ sealSpec testExt kZero nonce8 [1, 2, 3] [4]) :=
  seal_refines_spec testExt kZero [9] nonce8 [1, 2, 3] [4] (by decide)

/-- Witness for C7: a 7-byte nonce on a short-nonce instance makes
`Seal` panic with the invalid-nonce fault. -/
theorem nonce_size_panic_iff_witness :
    Seal testExt kZero [] (List.replicate 7 0) [] [] = .panicked .invalidNonce :=
  ((nonce_size_panic_iff testExt (List.replicate 32 0) kZero [] (List.replicate 7 0)
      [] [] [] (Or.inl rfl)).2.1 .invalidNonce).mpr ⟨by decide, rfl⟩

/-- Witness for C9: a concrete `Seal` output is 16 bytes longer than
its plaintext. -/
theorem seal_open_lengths_witness :
    (sealBytes testExt kZero nonce8 [1, 2, 3] []).length = [1, 2, 3].length + 16 :=
  (seal_open_lengths testExt kZero nonce8 [1, 2, 3] [] []
    (sealBytes testExt kZero nonce8 [1, 2, 3] []) [] testExt_mac_length (by decide)).1
    (by decide)

/-- Witness for C10: sealing into a non-empty `dst` appends the same
bytes that sealing into an empty `dst` produces. -/
theorem dst_append_semantics_witness :
    Seal testExt kZero [7, 7] nonce8 [1] [] =
      .ret ([7, 7] ++ sealBytes testExt kZero nonce8 [1] []) :=
  (dst_append_semantics testExt kZero [7, 7] nonce8 [1] [] []
    (sealBytes testExt kZero nonce8 [1] []) []).1 (by decide)

end ChaCha20Poly1305Guard
